import Mathlib

/-!
Verification of the devflow environment orchestrator.

This file shallowly embeds the parts of the Rust sources that the verified
properties talk about, and proves (or refutes) those properties.

Conventions of the embedding:
* Rust strings are sequences of Unicode scalar values, embedded as `List Nat`
  (one `Nat` per code point).  Concrete characters appear as their code points
  (for instance 10 is the line feed, 34 the double quote, 39 the single quote,
  45 the hyphen, 47 the slash, 58 the colon, 61 the equals sign).
* Rust `u16` arithmetic is `Nat` arithmetic modulo 2^16 (`add16`, `sub16`),
  which is the release-mode wrapping semantics of the source.
* `HashMap<String, _>` values are association lists without duplicate keys;
  lookup, insert and remove are the usual association-list operations.
* Filesystem, git, docker and tmux effects are embedded either as explicit
  operation traces (for the state store) or as a `World` record of the
  resources the orchestrator manipulates, with the external commands that
  cannot fail in the model (file removal, session kill) applied directly.
-/

set_option maxHeartbeats 1000000

namespace Devflow

/-! ## Names and association lists -/

/-- A Rust `String` (task names, branch names, session names …): a list of
Unicode code points. -/
abbrev Name := List Nat

/-- Lookup in an association list keyed by names (embeds `HashMap::get` /
one-file-per-key directory reads). -/
def alistLookup {α : Type} : List (Name × α) → Name → Option α
  | [], _ => none
  | (k, v) :: t, q => if k = q then some v else alistLookup t q

/-- Remove every binding of a key (embeds `HashMap::remove` /
`std::fs::remove_file` of the key's file). -/
def alistRemove {α : Type} : List (Name × α) → Name → List (Name × α)
  | [], _ => []
  | (k, v) :: t, q => if k = q then alistRemove t q else (k, v) :: alistRemove t q

/-- Remove every occurrence of an element from a plain list. -/
def listRemove : List Name → Name → List Name
  | [], _ => []
  | y :: t, x => if y = x then listRemove t x else y :: listRemove t x

/-- Insert an element if it is not already present. -/
def listInsert (l : List Name) (x : Name) : List Name :=
  if x ∈ l then l else x :: l

/-! ## Port registry (src/compose/ports.rs)

`AllocatedPorts` and the registry operations are translated from
`src/compose/ports.rs`.  The `u16` fields become `Nat` with wrapping
arithmetic mod 2^16. -/

/-- Wrapping `u16` addition. -/
def add16 (a b : Nat) : Nat := (a + b) % 65536

/-- Wrapping `u16` subtraction (for arguments below 2^16). -/
def sub16 (a b : Nat) : Nat := (a + 65536 - b) % 65536

/-- `AllocatedPorts { app, db, redis }` from src/compose/ports.rs. -/
structure AllocatedPorts where
  app : Nat
  db : Nat
  redis : Nat
deriving DecidableEq

def APP_BASE : Nat := 3001
def DB_BASE : Nat := 5433
def REDIS_BASE : Nat := 6380

/-- The `PortRegistry.allocations` map. -/
abbrev PortRegistry := List (Name × AllocatedPorts)

/-- Indices currently in use: `p.app - APP_BASE` for every allocation
(`u16` subtraction, as in the source). -/
def usedIndices (r : PortRegistry) : List Nat :=
  r.map (fun e => sub16 e.2.app APP_BASE)

/-- The scanning loop of `allocate`: `while used_indices.contains(&index)
{ index += 1 }`, with explicit fuel.  `used.length + 1` steps always
suffice, so for every registry the Rust loop and this function agree
(the Rust loop would only differ on a registry with 2^16 allocations,
where it never terminates). -/
def firstFreeFrom (used : List Nat) : Nat → Nat → Nat
  | 0, i => i
  | fuel + 1, i => if i ∈ used then firstFreeFrom used fuel (i + 1) else i

/-- The index chosen by the gap-filling scan: the loop started at 0. -/
def firstFree (used : List Nat) : Nat :=
  firstFreeFrom used (used.length + 1) 0

/-- `allocate` from src/compose/ports.rs, at the registry level: return the
existing triple if the worker already has one, otherwise gap-fill.  The
file locking and the read/write of `ports.json` around this logic are
embedded in `allocateFile` below. -/
def allocateReg (r : PortRegistry) (name : Name) : AllocatedPorts × PortRegistry :=
  match alistLookup r name with
  | some p => (p, r)
  | none =>
    let i := firstFree (usedIndices r)
    let p : AllocatedPorts := ⟨add16 APP_BASE i, add16 DB_BASE i, add16 REDIS_BASE i⟩
    (p, r ++ [(name, p)])

/-- `release` from src/compose/ports.rs, at the registry level. -/
def releaseReg (r : PortRegistry) (name : Name) : PortRegistry :=
  alistRemove r name

/-- The state of the `ports.json` file as seen by `load_registry`:
`none` = file absent (read fails), `some none` = file present but not
valid JSON for a registry, `some (some r)` = parses as `r`.  The JSON
codec itself (serde) is external and abstracted by this three-way state. -/
abbrev RegistryFile := Option (Option PortRegistry)

/-- `load_registry`: `read_to_string(path).ok().and_then(parse.ok()).unwrap_or_default()`. -/
def loadRegistry (f : RegistryFile) : PortRegistry :=
  (f.bind id).getD []

/-- `allocate` including the registry file round trip: load (with the
default-on-failure semantics of `load_registry`), allocate, save. -/
def allocateFile (f : RegistryFile) (name : Name) : AllocatedPorts × RegistryFile :=
  let r := loadRegistry f
  let pr := allocateReg r name
  (pr.1, some (some pr.2))

/-- `release` including the registry file round trip. -/
def releaseFile (f : RegistryFile) (name : Name) : RegistryFile :=
  some (some (releaseReg (loadRegistry f) name))

/-- Same-index invariant of a port triple, in the `u16` arithmetic of the
source: `app - APP_BASE == db - DB_BASE == redis - REDIS_BASE`. -/
def sameIndex (p : AllocatedPorts) : Prop :=
  sub16 p.app APP_BASE = sub16 p.db DB_BASE ∧
  sub16 p.db DB_BASE = sub16 p.redis REDIS_BASE

/-- Task names used by the concrete gap-filling scenario (code points of
the one-letter names a…f). -/
def nameA : Name := [97]
def nameB : Name := [98]
def nameC : Name := [99]
def nameD : Name := [100]
def nameE : Name := [101]
def nameF : Name := [102]

/-- Registry obtained by allocating five tasks a…e in order (indices 0..=4). -/
def gapRegistry5 : PortRegistry :=
  (allocateReg (allocateReg (allocateReg (allocateReg
    (allocateReg [] nameA).2 nameB).2 nameC).2 nameD).2 nameE).2

/-! ## Branch name formatting (src/git/branch.rs) -/

/-- One code point of Rust `str::to_lowercase`, implemented exactly on the
Basic Latin and Latin-1 ranges (the only code points this development
evaluates it on): ASCII A-Z map down by 32, À-Þ except × map down by 32,
µ (U+00B5) maps to Greek μ (U+03BC), everything else is fixed. -/
def rustLowerChar (c : Nat) : Nat :=
  if 65 ≤ c ∧ c ≤ 90 then c + 32
  else if 192 ≤ c ∧ c ≤ 222 ∧ c ≠ 215 then c + 32
  else if c = 181 then 956
  else c

/-- Rust `char::is_alphanumeric` (Unicode Alphabetic or Number property),
implemented exactly on Basic Latin and Latin-1 plus U+03BC: the digits,
the ASCII letters, ª µ º ² ³ ¹ ¼ ½ ¾, À-Ö, Ø-ö, ø-ÿ, and μ. -/
def rustIsAlphanumeric (c : Nat) : Bool :=
  decide ((48 ≤ c ∧ c ≤ 57) ∨ (65 ≤ c ∧ c ≤ 90) ∨ (97 ≤ c ∧ c ≤ 122) ∨
    c = 170 ∨ c = 181 ∨ c = 186 ∨ (178 ≤ c ∧ c ≤ 179) ∨ c = 185 ∨
    (188 ≤ c ∧ c ≤ 190) ∨ (192 ≤ c ∧ c ≤ 214) ∨ (216 ≤ c ∧ c ≤ 246) ∨
    (248 ≤ c ∧ c ≤ 255) ∨ c = 956)

/-- `str::replace(' ', "-")`, per code point (32 is the space, 45 the hyphen). -/
def spaceToHyphen (c : Nat) : Nat := if c = 32 then 45 else c

/-- `format_branch_name` from src/git/branch.rs: lowercase the name, turn
spaces into hyphens, drop every character that is neither alphanumeric nor a
hyphen, and join as `project/task_type/sanitized` (47 is the slash). -/
def formatBranchName (project taskType name : Name) : Name :=
  let sanitized := ((name.map rustLowerChar).map spaceToHyphen).filter
    (fun c => rustIsAlphanumeric c || c == 45)
  project ++ 47 :: (taskType ++ 47 :: sanitized)

/-- Keep-predicate of the slug as the specification words it: only
characters in the set [a-z0-9-] survive. -/
def specSlugKeep (c : Nat) : Bool :=
  decide ((97 ≤ c ∧ c ≤ 122) ∨ (48 ≤ c ∧ c ≤ 57) ∨ c = 45)

/-- The branch formatter exactly as the specification describes it (for the
refinement comparison with `formatBranchName`): lowercased, spaces to
hyphens, every character outside [a-z0-9-] removed. -/
def specFormatBranchName (project taskType name : Name) : Name :=
  project ++ 47 :: (taskType ++ 47 ::
    ((name.map rustLowerChar).map spaceToHyphen).filter specSlugKeep)

/-! ## State store (src/orchestrator/state.rs) -/

/-- A filesystem path, as its list of components. -/
abbrev FsPath := List Name

/-- Filesystem operations a writer can issue. -/
inductive FsOp where
  | createDirAll : FsPath → FsOp
  | writeFile : FsPath → List Nat → FsOp
  | rename : FsPath → FsPath → FsOp
deriving DecidableEq

/-- `GroveState::save` from src/orchestrator/state.rs as the trace of
filesystem operations it performs: create the parent directory if any, then
`std::fs::write` the serialized record (the serde serialization is
abstracted as the given byte string) directly to the final path.  The
source contains no temporary file, no fsync and no rename. -/
def groveSaveOps (serialized : List Nat) (path : FsPath) : List FsOp :=
  [FsOp.createDirAll path.dropLast, FsOp.writeFile path serialized]

/-- The atomic-write pattern the specification claims for record saves:
some sibling temporary path is written and then renamed over the final
path, and the final path itself is never written directly. -/
def atomicSavePattern (ops : List FsOp) (path : FsPath) : Prop :=
  (∃ tmp contents, tmp ≠ path ∧ tmp.dropLast = path.dropLast ∧
    FsOp.writeFile tmp contents ∈ ops ∧ FsOp.rename tmp path ∈ ops) ∧
  ∀ contents, FsOp.writeFile path contents ∉ ops

/-- Concrete record path groves/t.json used by the counterexample. -/
def cPathGroves : FsPath :=
  [[103, 114, 111, 118, 101, 115], [116, 46, 106, 115, 111, 110]]

/-! ## The .env normalizer (src/compose/manager.rs, normalize_env_file) -/

/-- Rust `char::is_whitespace`: the Unicode White_Space property, in full. -/
def isRustWhitespace (c : Nat) : Bool :=
  decide (c = 9 ∨ c = 10 ∨ c = 11 ∨ c = 12 ∨ c = 13 ∨ c = 32 ∨ c = 133 ∨
    c = 160 ∨ c = 5760 ∨ (8192 ≤ c ∧ c ≤ 8202) ∨ c = 8232 ∨ c = 8233 ∨
    c = 8239 ∨ c = 8287 ∨ c = 12288)

/-- Rust `str::trim`: drop whitespace from both ends. -/
def rustTrim (l : List Nat) : List Nat :=
  ((l.dropWhile isRustWhitespace).reverse.dropWhile isRustWhitespace).reverse

/-- Rust `str::strip_prefix` for a string pattern. -/
def stripPre (p l : List Nat) : Option (List Nat) :=
  if l.take p.length = p then some (l.drop p.length) else none

/-- Rust `str::strip_prefix` for a single-character pattern. -/
def stripPre1 (q : Nat) : List Nat → Option (List Nat)
  | [] => none
  | x :: xs => if x = q then some xs else none

/-- Rust `str::strip_suffix` for a single-character pattern. -/
def stripSuf1 (q : Nat) (l : List Nat) : Option (List Nat) :=
  if l.getLast? = some q then some l.dropLast else none

/-- Rust `str::split_once`: split at the first occurrence of a character. -/
def splitOnce (c : Nat) : List Nat → Option (List Nat × List Nat)
  | [] => none
  | x :: xs =>
    if x = c then some ([], xs)
    else (splitOnce c xs).map (fun p => (x :: p.1, p.2))

/-- The code points of the pattern "export " stripped from assignment lines. -/
def exportKeyword : List Nat := [101, 120, 112, 111, 114, 116, 32]

/-- One line of `normalize_env_file`: blank and comment lines (35 is the
hash) are kept verbatim; otherwise the trimmed line loses one leading
`export `, is split at the first equals sign (61), the key and value are
trimmed, one layer of surrounding matching double (34) or single (39)
quotes is removed from the value, and the line is re-emitted as key=value;
a line with no equals sign is emitted trimmed. -/
def procLine (line : List Nat) : List Nat :=
  let t := rustTrim line
  if t = [] ∨ t.head? = some 35 then line
  else
    let t := (stripPre exportKeyword t).getD t
    match splitOnce 61 t with
    | some kv =>
      let k := rustTrim kv.1
      let v := rustTrim kv.2
      let v := (((stripPre1 34 v).bind (stripSuf1 34)).orElse
        (fun _ => (stripPre1 39 v).bind (stripSuf1 39))).getD v
      k ++ 61 :: v
    | none => t

/-- Split at every line feed (10), keeping all segments (an empty final
segment marks a trailing newline). -/
def splitNl : List Nat → List (List Nat)
  | [] => [[]]
  | c :: rest =>
    if c = 10 then [] :: splitNl rest
    else
      match splitNl rest with
      | s :: ss => (c :: s) :: ss
      | [] => [[c]]

/-- Drop one trailing carriage return (13). -/
def stripTrailingCR (l : List Nat) : List Nat :=
  if l.getLast? = some 13 then l.dropLast else l

/-- Rust `str::lines`: split at line feeds, strip the carriage return of
\r\n endings (only from newline-terminated segments), drop the empty final
segment produced by a trailing newline. -/
def rustLines (s : List Nat) : List (List Nat) :=
  let segs := splitNl s
  let init := segs.dropLast.map stripTrailingCR
  match segs.getLast? with
  | none => []
  | some [] => init
  | some last => init ++ [last]

/-- `normalize_env_file`: process every line and terminate each output line
with a line feed. -/
def normalizeEnv (s : List Nat) : List Nat :=
  ((rustLines s).map (fun l => procLine l ++ [10])).flatten

/-- A line is stable when it contains no line feed, does not end in a
carriage return, and is fixed by per-line normalization. -/
def lineStable (l : List Nat) : Prop :=
  10 ∉ l ∧ l.getLast? ≠ some 13 ∧ procLine l = l

instance (l : List Nat) : Decidable (lineStable l) := by
  unfold lineStable
  infer_instance

/-- The nested-quote input A="'1'" refuting the fixed-point claim. -/
def envCounterexample : List Nat := [65, 61, 34, 39, 49, 39, 34]

/-- A stable witness input (the code points of four lines:
an exported quoted assignment, a comment, a blank line, and a spaced
assignment). -/
def envWitnessInput : List Nat :=
  [101, 120, 112, 111, 114, 116, 32, 65, 61, 34, 49, 34, 10,
   35, 32, 99, 10, 10, 66, 32, 61, 32, 50]

/-! ## Workspace builder pane targeting (src/tmux/workspace.rs and the
initial-command send in src/orchestrator/grove.rs)

A tmux target string of the shape session:window.pane is embedded
structurally: the window part either carries a numeric window index (as in
the format calls of create_worker_session, which build
session:win_index.pane_idx) or a window name (as in the format call of
plant step 7, which builds ws_name:first_win.name.0). -/

/-- How the window part of a pane target is addressed. -/
inductive WinSel where
  | byIndex : Nat → WinSel
  | byName : Name → WinSel
deriving DecidableEq

/-- A pane-addressed tmux target session:window.pane. -/
structure PaneTarget where
  sess : Name
  win : WinSel
  pane : Nat
deriving DecidableEq

/-- `PaneTemplate` from src/tmux/workspace.rs. -/
structure PaneTemplate where
  command : Option Name
  directory : Option Name
  focus : Bool
  host : Bool
deriving DecidableEq

/-- `WindowTemplate` from src/tmux/workspace.rs. -/
structure WindowTemplate where
  name : Name
  layout : Name
  panes : List PaneTemplate
deriving DecidableEq

/-- `WorkspaceTemplate` from src/tmux/workspace.rs. -/
structure WorkspaceTemplate where
  windows : List WindowTemplate
deriving DecidableEq

/-- `worker_session_name`: the hub session name, a hyphen, the task name. -/
def workerSessionName (hub task : Name) : Name := hub ++ 45 :: task

/-- The focused pane selected by create_worker_session: the last
pane whose focus flag is set. -/
def lastFocusIdx (panes : List PaneTemplate) : Option Nat :=
  ((panes.enum.filter (fun e => e.2.focus)).map (fun e => e.1)).getLast?

/-- The pane-addressed tmux commands (send-keys to a pane, select-pane)
that create_worker_session emits for one window, in order: the cd sent to
pane 0 when it has a custom directory, then the per-pane command sends
(a non-host pane always receives a send when compose is active, otherwise
only panes with a command do), then the focused-pane selection.  All of
them target session:(base-index + window position).(pane position).
Window-addressed commands (split-window, select-layout, rename-window) and
session creation carry no pane and are not pane-addressed. -/
def windowPaneTargets (sessionName : Name) (baseIndex winIdx : Nat)
    (hasExec : Bool) (w : WindowTemplate) : List PaneTarget :=
  let wi := baseIndex + winIdx
  let cdOps : List PaneTarget :=
    match w.panes.head? with
    | some p => if p.directory.isSome then [⟨sessionName, WinSel.byIndex wi, 0⟩] else []
    | none => []
  let cmdOps : List PaneTarget :=
    (w.panes.enum.filter (fun e => (hasExec && !e.2.host) || e.2.command.isSome)).map
      (fun e => ⟨sessionName, WinSel.byIndex wi, e.1⟩)
  let focusOps : List PaneTarget :=
    match lastFocusIdx w.panes with
    | some j => [⟨sessionName, WinSel.byIndex wi, j⟩]
    | none => []
  cdOps ++ cmdOps ++ focusOps

/-- All pane-addressed targets of create_worker_session over the whole
template (windows enumerated from the runtime base-index). -/
def sessionPaneTargets (sessionName : Name) (tpl : WorkspaceTemplate)
    (baseIndex : Nat) (hasExec : Bool) : List PaneTarget :=
  (tpl.windows.enum.map
    (fun e => windowPaneTargets sessionName baseIndex e.1 hasExec e.2)).flatten

/-- The target of the initial-command send of plant step 7
(src/orchestrator/grove.rs): the string ws_name:first_window_NAME.0 —
the window part is the template window's name, not its index. -/
def plantInitialSendTarget (ws : Name) (tpl : WorkspaceTemplate) : Option PaneTarget :=
  tpl.windows.head?.map (fun w0 => ⟨ws, WinSel.byName w0.name, 0⟩)

/-- Whether a pane target addresses its window by index. -/
def targetByIndex : PaneTarget → Bool
  | ⟨_, WinSel.byIndex _, _⟩ => true
  | ⟨_, WinSel.byName _, _⟩ => false

/-- The code points of the window name server. -/
def serverStr : Name := [115, 101, 114, 118, 101, 114]

/-- `default_template` from src/tmux/workspace.rs: a server window
(tiled; log tail, rails console, sidekiq, and an empty pane, all
container panes) and an editor window (main-vertical; vim focused on host,
an empty host pane, claude on host, rails console in the container). -/
def defaultTemplate : WorkspaceTemplate :=
  ⟨[⟨serverStr, [116, 105, 108, 101, 100],
      [⟨some [116, 97, 105, 108, 32, 45, 102, 32, 108, 111, 103, 47, 100, 101,
          118, 101, 108, 111, 112, 109, 101, 110, 116, 46, 108, 111, 103],
        none, false, false⟩,
       ⟨some [114, 97, 105, 108, 115, 32, 99, 111, 110, 115, 111, 108, 101],
        none, false, false⟩,
       ⟨some [98, 117, 110, 100, 108, 101, 32, 101, 120, 101, 99, 32, 115,
          105, 100, 101, 107, 105, 113], none, false, false⟩,
       ⟨none, none, false, false⟩]⟩,
    ⟨[101, 100, 105, 116, 111, 114],
      [109, 97, 105, 110, 45, 118, 101, 114, 116, 105, 99, 97, 108],
      [⟨some [118, 105, 109], none, true, true⟩,
       ⟨none, none, false, true⟩,
       ⟨some [99, 108, 97, 117, 100, 101], none, false, true⟩,
       ⟨some [114, 97, 105, 108, 115, 32, 99, 111, 110, 115, 111, 108, 101],
        none, false, false⟩]⟩]⟩

/-- The code points of the hub session name groot. -/
def hubName : Name := [103, 114, 111, 111, 116]

/-- The code points of the task name feat. -/
def taskFeat : Name := [102, 101, 97, 116]

/-! ## Orchestrator world model (src/orchestrator/grove.rs)

The resources `plant`, `stop` and their rollbacks manipulate are gathered in
a `World`: record files under groves/ (keyed by task name, holding the
parsed record — in this model every record file parses, and the task_name
field always equals the file name, as `plant` writes it), lock files,
worktree directories and compose directories (both keyed by task name, as
the source derives both paths from the task name), the git branches, the
port registry, and the live tmux sessions.  External commands whose outcome
the orchestrator ignores or that live outside these resources
(docker compose down, file copies into the worktree, CLAUDE.local.md
generation, database setup, post-start hooks) have no footprint in the
`World`; filesystem removals and session kills always succeed in the model.
Fallible external steps of `plant` are driven by a `PlantOracle` so that
every failure path (and its rollback) is covered. -/

/-- The environment record as `plant` builds and `GroveState::save`
persists it (src/orchestrator/grove.rs step 8); the task_name,
worktree_path and timestamp fields are determined by the key and omitted. -/
structure GroveRec where
  branch : Name
  composeFile : Option Name
  composePorts : Option AllocatedPorts
  tmuxSession : Option Name
  sharedGrove : Option Name
  sharedComposePorts : Option AllocatedPorts
deriving DecidableEq

/-- The mutable resources of the orchestrator. -/
structure World where
  records : List (Name × GroveRec)
  locks : List Name
  worktrees : List Name
  branches : List Name
  composeDirs : List Name
  registry : PortRegistry
  sessions : List Name
deriving DecidableEq

/-- `find_sharing_trees`: the task names of all records whose shared_grove
field names the given grove. -/
def sharingTrees : List (Name × GroveRec) → Name → List Name
  | [], _ => []
  | (k, r) :: t, g =>
    if r.sharedGrove = some g then k :: sharingTrees t g else sharingTrees t g

/-- The teardown tail shared by `stop` (lines 403-425 of grove.rs): if the
record has a compose file, release the ports and remove the compose
directory (compose down is external); kill the record's tmux session;
remove the record file; remove the lock file.  Worktrees and branches are
not touched. -/
def teardown (w : World) (t : Name) (st : GroveRec) : World :=
  let w1 := match st.composeFile with
    | some _ => { w with registry := alistRemove w.registry t,
                         composeDirs := listRemove w.composeDirs t }
    | none => w
  let w2 := match st.tmuxSession with
    | some ws => { w1 with sessions := listRemove w1.sessions ws }
    | none => w1
  { w2 with records := alistRemove w2.records t, locks := listRemove w2.locks t }

/-- `stop` at force = false: the recursive case is unreachable (a grove
with sharing trees errors out before any teardown), so this is the exact
behaviour of the source's recursive calls `stop(tree, false)`. -/
def stopNoForce (w : World) (t : Name) : Except Unit World :=
  match alistLookup w.records t with
  | none => Except.error ()
  | some st =>
    if st.composeFile.isSome ∧ sharingTrees w.records t ≠ [] then Except.error ()
    else Except.ok (teardown w t st)

/-- The per-sharing-tree call in `stop --force`: errors are reported as a
warning and ignored, leaving the world as it was (in the model a failing
`stopNoForce` has mutated nothing). -/
def stopChildIgnoringErr (w : World) (t : Name) : World :=
  match stopNoForce w t with
  | Except.ok w2 => w2
  | Except.error _ => w

/-- `stop` from src/orchestrator/grove.rs: look up the record; if it is a
grove (compose file present) with sharing trees, refuse without force, or
stop each sharing tree first with force; then tear down. -/
def stop (w : World) (t : Name) (force : Bool) : Except Unit World :=
  match alistLookup w.records t with
  | none => Except.error ()
  | some st =>
    if st.composeFile.isSome ∧ sharingTrees w.records t ≠ [] then
      if force then
        Except.ok
          (teardown ((sharingTrees w.records t).foldl stopChildIgnoringErr w) t st)
      else Except.error ()
    else Except.ok (teardown w t st)

/-- Outcomes of the fallible external steps of `plant`, in stage order:
lock try-acquire, disk-space check, worktree creation, docker compose
availability, port allocation (its lock and registry write), the
bindability check of the allocated ports, compose file generation,
compose up, the health wait, tmux session creation, and the record save. -/
structure PlantOracle where
  lockOk : Bool
  diskOk : Bool
  worktreeOk : Bool
  composeAvailOk : Bool
  allocOk : Bool
  portsFreeOk : Bool
  generateOk : Bool
  upOk : Bool
  healthyOk : Bool
  sessionOk : Bool
  saveOk : Bool
deriving DecidableEq

/-- Arguments of `plant` that the world model consumes. -/
structure PlantArgs where
  task : Name
  branchName : Name
  hub : Name
  enableCompose : Bool
  sharedGrove : Option Name
  sharedComposePorts : Option AllocatedPorts
deriving DecidableEq

/-- Rollback fragment: release the task's port allocation. -/
def releasePortsOnly (w : World) (t : Name) : World :=
  { w with registry := alistRemove w.registry t }

/-- Rollback fragment: remove the task's compose directory. -/
def removeComposeDir (w : World) (t : Name) : World :=
  { w with composeDirs := listRemove w.composeDirs t }

/-- Rollback fragment shared by every failure path of `plant`: remove the
worktree unless it was reused from a previous stop, and delete the branch
only when this plant created it. -/
def rollbackWtBranch (w : World) (task branchName : Name)
    (reusing branchCreated : Bool) : World :=
  let w1 := if reusing then w else { w with worktrees := listRemove w.worktrees task }
  if branchCreated then { w1 with branches := listRemove w1.branches branchName } else w1

/-- The compose-teardown fragment of the session/save rollbacks, run only
when this plant brought its own compose stack up (compose down itself is
external): release the ports, remove the compose directory. -/
def composeRollbackIf (b : Bool) (w : World) (t : Name) : World :=
  if b then removeComposeDir (releasePortsOnly w t) t else w

/-- Stages 6-8 of `plant` (workspace session and record save), shared by
the compose and the non-compose paths: on session failure, destroy the
session, tear the own compose stack down when one was made, and roll back
worktree and branch; otherwise create the session, and save the record
(same rollback plus session destruction on save failure).  The
initial-command send between the two stages is external. -/
def plantFinish (w : World) (o : PlantOracle) (a : PlantArgs)
    (reusing branchCreated composeMade : Bool) (ports : Option AllocatedPorts) :
    World × Except Unit GroveRec :=
  let ws := workerSessionName a.hub a.task
  if ¬ o.sessionOk then
    (rollbackWtBranch
      (composeRollbackIf composeMade
        { w with sessions := listRemove w.sessions ws } a.task)
      a.task a.branchName reusing branchCreated, Except.error ())
  else
  let w := { w with sessions := listInsert w.sessions ws }
  let st : GroveRec := ⟨a.branchName,
    if composeMade then some a.task else none, ports, some ws,
    a.sharedGrove, a.sharedComposePorts⟩
  if ¬ o.saveOk then
    (rollbackWtBranch
      (composeRollbackIf composeMade
        { w with sessions := listRemove w.sessions ws } a.task)
      a.task a.branchName reusing branchCreated, Except.error ())
  else
  ({ w with records := (a.task, st) :: w.records }, Except.ok st)

/-- Stage 5a-5e of `plant` (the compose pipeline): compose availability,
port allocation, port bindability check, compose-file generation, up and
health wait.  Failing stages with the same model footprint are tested
together: availability and allocation failures roll back worktree and
branch only; bindability and generation failures additionally release the
ports (the compose directory does not exist yet); up and health failures
also remove the compose directory (plus the external compose down). -/
def plantCompose (w : World) (o : PlantOracle) (a : PlantArgs)
    (reusing branchCreated : Bool) : World × Except Unit GroveRec :=
  if ¬ o.composeAvailOk ∨ ¬ o.allocOk then
    (rollbackWtBranch w a.task a.branchName reusing branchCreated, Except.error ())
  else
  let alloc := allocateReg w.registry a.task
  let w := { w with registry := alloc.2 }
  if ¬ o.portsFreeOk ∨ ¬ o.generateOk then
    (rollbackWtBranch (releasePortsOnly w a.task) a.task a.branchName
      reusing branchCreated, Except.error ())
  else
  let w := { w with composeDirs := listInsert w.composeDirs a.task }
  if ¬ o.upOk ∨ ¬ o.healthyOk then
    (rollbackWtBranch (removeComposeDir (releasePortsOnly w a.task) a.task)
      a.task a.branchName reusing branchCreated, Except.error ())
  else
  plantFinish w o a reusing branchCreated true (some alloc.1)

/-- `plant` from src/orchestrator/grove.rs, staged exactly as the source:
lock (the lock file is created even when the try-lock fails), duplicate
record check, disk check, branch creation (skipped when the branch
exists), worktree creation (reused when present), then the compose
pipeline when compose is enabled, the workspace session, and the record
save.  Returns the final world and either the saved record or the error. -/
def plant (w0 : World) (o : PlantOracle) (a : PlantArgs) :
    World × Except Unit GroveRec :=
  let w := { w0 with locks := listInsert w0.locks a.task }
  if ¬ o.lockOk then (w, Except.error ()) else
  if (alistLookup w.records a.task).isSome then (w, Except.error ()) else
  if ¬ o.diskOk then (w, Except.error ()) else
  let branchCreated : Bool := decide (a.branchName ∉ w.branches)
  let w := if branchCreated then { w with branches := listInsert w.branches a.branchName }
           else w
  let reusing : Bool := decide (a.task ∈ w.worktrees)
  if ¬ reusing ∧ ¬ o.worktreeOk then
    (rollbackWtBranch w a.task a.branchName reusing branchCreated, Except.error ())
  else
  let w := if reusing then w else { w with worktrees := listInsert w.worktrees a.task }
  if a.enableCompose then plantCompose w o a reusing branchCreated
  else plantFinish w o a reusing branchCreated false none

/-- Record of the concrete grove used by the stop witness: branch b,
compose file c, default port triple, session s, not sharing. -/
def recW : GroveRec :=
  ⟨[98], some [99], some ⟨3001, 5433, 6380⟩, some [115], none, none⟩

/-- Concrete world with one running grove for the stop witness. -/
def worldW : World :=
  { records := [(taskFeat, recW)]
    locks := [taskFeat]
    worktrees := [taskFeat]
    branches := [[98]]
    composeDirs := [taskFeat]
    registry := [(taskFeat, ⟨3001, 5433, 6380⟩)]
    sessions := [[115]] }

/-- The world after stopping the witness grove: ephemeral resources gone,
worktree and branch intact. -/
def worldWAfter : World :=
  { records := []
    locks := []
    worktrees := [taskFeat]
    branches := [[98]]
    composeDirs := []
    registry := []
    sessions := [] }

/-- Oracle for the plant witness: everything succeeds up to compose up,
which fails, forcing the compose/worktree/branch rollback path. -/
def plantOracleUpFail : PlantOracle :=
  ⟨true, true, true, true, true, true, true, false, true, true, true⟩

/-- Arguments for the plant witness: task feat on the pre-existing branch b
with compose enabled and no sharing. -/
def plantArgsW : PlantArgs := ⟨taskFeat, [98], hubName, true, none, none⟩

/-- Initial world for the plant witness: only the branch b exists. -/
def worldP : World :=
  { records := []
    locks := []
    worktrees := []
    branches := [[98]]
    composeDirs := []
    registry := []
    sessions := [] }

/-! ## Postgres URL parsing (src/compose/db.rs, parse_pg_url)

`parse_pg_url` delegates the URL split to the external url crate
(`url::Url::parse`).  `urlParse` below models that crate's documented
behaviour for generic (non-special) schemes as exercised here: the scheme
is ASCII-lowercased; after `://` the authority runs to the first of
`/ ? #`; userinfo ends at the last `@`; the port is the decimal after the
last `:` of the host-port part, must be numeric and fit in a `u16`, and an
empty port is treated as absent; the host is opaque (kept verbatim) and
rejected on forbidden host code points; the path runs to `?` or `#`.
Restrictions of the model: no IPv6 bracket hosts and no percent-decoding
(the verified properties stay inside this fragment). -/

/-- ASCII letter. -/
def isAsciiAlpha (c : Nat) : Bool :=
  decide ((65 ≤ c ∧ c ≤ 90) ∨ (97 ≤ c ∧ c ≤ 122))

/-- ASCII digit. -/
def isAsciiDigit (c : Nat) : Bool := decide (48 ≤ c ∧ c ≤ 57)

/-- ASCII lowercasing of one code point. -/
def asciiLower (c : Nat) : Nat := if 65 ≤ c ∧ c ≤ 90 then c + 32 else c

/-- Characters allowed in a scheme after the first: letters, digits,
plus (43), hyphen (45), dot (46). -/
def isSchemeChar (c : Nat) : Bool :=
  isAsciiAlpha c || isAsciiDigit c || decide (c = 43 ∨ c = 45 ∨ c = 46)

/-- The forbidden host code points of the URL standard (controls, space,
hash, slash, colon, angle brackets, question mark, at, square brackets,
backslash, caret, pipe). -/
def isForbiddenHostChar (c : Nat) : Bool :=
  decide (c = 0 ∨ c = 9 ∨ c = 10 ∨ c = 13 ∨ c = 32 ∨ c = 35 ∨ c = 47 ∨
    c = 58 ∨ c = 60 ∨ c = 62 ∨ c = 63 ∨ c = 64 ∨ c = 91 ∨ c = 92 ∨
    c = 93 ∨ c = 94 ∨ c = 124)

/-- Decimal digits of a number, most significant first, as code points. -/
def natDecimalAux (n : Nat) (acc : List Nat) : List Nat :=
  if h : n < 10 then (48 + n) :: acc
  else natDecimalAux (n / 10) ((48 + n % 10) :: acc)
termination_by n
decreasing_by exact Nat.div_lt_self (by omega) (by omega)

/-- Canonical decimal rendering of a number (the to_string of a u16). -/
def natDecimal (n : Nat) : List Nat := natDecimalAux n []

/-- Numeric value of a digit string. -/
def digitsVal (l : List Nat) : Nat :=
  l.foldl (fun a c => a * 10 + (c - 48)) 0

/-- Whether every character is an ASCII digit. -/
def allDigits (l : List Nat) : Bool := l.all isAsciiDigit

/-- Split at the last occurrence of a character. -/
def splitLast (c : Nat) (l : List Nat) : Option (List Nat × List Nat) :=
  match splitOnce c l.reverse with
  | some p => some (p.2.reverse, p.1.reverse)
  | none => none

/-- The parts of a parsed URL that parse_pg_url consumes. -/
structure UrlParts where
  scheme : List Nat
  host : Option (List Nat)
  port : Option Nat
  path : List Nat
deriving DecidableEq

/-- The url crate's generic-URL parser on the fragment described above. -/
def urlParse (s : List Nat) : Option UrlParts :=
  match s.head? with
  | none => none
  | some c0 =>
    if ¬ isAsciiAlpha c0 then none
    else
      let schemeRaw := s.takeWhile isSchemeChar
      let rest := s.dropWhile isSchemeChar
      match rest with
      | 58 :: rest1 =>
        let scheme := schemeRaw.map asciiLower
        if rest1.take 2 = [47, 47] then
          let rest2 := rest1.drop 2
          let authority :=
            rest2.takeWhile (fun c => decide (c ≠ 47 ∧ c ≠ 63 ∧ c ≠ 35))
          let afterAuth :=
            rest2.dropWhile (fun c => decide (c ≠ 47 ∧ c ≠ 63 ∧ c ≠ 35))
          let hostport := match splitLast 64 authority with
            | some p => p.2
            | none => authority
          let hp : Option (List Nat × Option Nat) :=
            match splitLast 58 hostport with
            | some p =>
              if p.2 = [] then some (p.1, none)
              else if allDigits p.2 then
                if digitsVal p.2 ≤ 65535 then some (p.1, some (digitsVal p.2))
                else none
              else none
            | none => some (hostport, none)
          match hp with
          | none => none
          | some (h, prt) =>
            if h.any isForbiddenHostChar then none
            else
              let path := afterAuth.takeWhile (fun c => decide (c ≠ 63 ∧ c ≠ 35))
              some ⟨scheme, some h, prt, path⟩
        else
          let path := rest1.takeWhile (fun c => decide (c ≠ 63 ∧ c ≠ 35))
          some ⟨scheme, none, none, path⟩
      | _ => none

/-- The code points of the scheme postgres. -/
def schemePostgres : List Nat := [112, 111, 115, 116, 103, 114, 101, 115]

/-- The code points of the scheme postgresql. -/
def schemePostgresql : List Nat :=
  [112, 111, 115, 116, 103, 114, 101, 115, 113, 108]

/-- The errors of parse_pg_url (the source wraps them in Other with a
message): unparseable URL, wrong scheme, missing host, missing database
name. -/
inductive PgUrlError where
  | invalidUrl
  | invalidScheme
  | noHost
  | noDbName
deriving DecidableEq

/-- `parse_pg_url` from src/compose/db.rs: parse, accept only the postgres
and postgresql schemes, require a host, default the port to 5432, take the
path with leading slashes stripped as the database name and require it
nonempty.  (The source renders the port back to a string; the model keeps
the numeric value that string prints.) -/
def parsePgUrl (raw : List Nat) : Except PgUrlError (List Nat × Nat × List Nat) :=
  match urlParse raw with
  | none => Except.error PgUrlError.invalidUrl
  | some u =>
    if u.scheme = schemePostgres ∨ u.scheme = schemePostgresql then
      match u.host with
      | none => Except.error PgUrlError.noHost
      | some host =>
        let port := u.port.getD 5432
        let dbName := u.path.dropWhile (fun c => decide (c = 47))
        if dbName = [] then Except.error PgUrlError.noDbName
        else Except.ok (host, port, dbName)
    else Except.error PgUrlError.invalidScheme

/-- The serialization the repository uses for postgres URLs (the detect
functions build exactly postgres://host:port/db). -/
def serializePgUrl (host : List Nat) (port : Nat) (db : List Nat) : List Nat :=
  schemePostgres ++ 58 :: 47 :: 47 :: (host ++ 58 :: (natDecimal port ++ 47 :: db))

/-- Characters of a well-formed host name: letters, digits, hyphen, dot,
underscore. -/
def isHostChar (c : Nat) : Bool :=
  isAsciiAlpha c || isAsciiDigit c || decide (c = 45 ∨ c = 46 ∨ c = 95)

/-- Characters of a well-formed database name: letters, digits, hyphen,
underscore. -/
def isDbChar (c : Nat) : Bool :=
  isAsciiAlpha c || isAsciiDigit c || decide (c = 45 ∨ c = 95)

/-- A valid host: nonempty, made of host characters. -/
def validHostName (h : List Nat) : Prop :=
  h ≠ [] ∧ ∀ c ∈ h, isHostChar c = true

instance (h : List Nat) : Decidable (validHostName h) := by
  unfold validHostName
  infer_instance

/-- A valid database name: nonempty, made of database-name characters. -/
def validDbName (d : List Nat) : Prop :=
  d ≠ [] ∧ ∀ c ∈ d, isDbChar c = true

instance (d : List Nat) : Decidable (validDbName d) := by
  unfold validDbName
  infer_instance

/-- Code points of localhost, for the witness. -/
def hostLocalhost : List Nat := [108, 111, 99, 97, 108, 104, 111, 115, 116]

/-- Code points of mydb, for the witness. -/
def dbMydb : List Nat := [109, 121, 100, 98]

/-- Code points of the invalid-scheme URL mysql://localhost/mydb. -/
def mysqlUrl : List Nat :=
  [109, 121, 115, 113, 108, 58, 47, 47, 108, 111, 99, 97, 108, 104, 111,
   115, 116, 47, 109, 121, 100, 98]

/-- The parse of mysqlUrl (scheme mysql, host localhost, path /mydb). -/
def mysqlParts : UrlParts :=
  ⟨[109, 121, 115, 113, 108], some hostLocalhost, none, 47 :: dbMydb⟩

/-! ## Theorems: port registry -/

theorem firstFreeFrom_spec (used : List Nat) :
    ∀ (fuel i j : Nat), j ∉ used → i ≤ j → j < i + fuel →
      firstFreeFrom used fuel i ∉ used ∧ i ≤ firstFreeFrom used fuel i ∧
      ∀ k, i ≤ k → k < firstFreeFrom used fuel i → k ∈ used := by
  intro fuel
  induction fuel with
  | zero => intro i j _ hij hlt; omega
  | succ n ih =>
    intro i j hj hij hlt
    by_cases hi : i ∈ used
    · have hne : j ≠ i := fun h => hj (h ▸ hi)
      have hrw : firstFreeFrom used (n + 1) i = firstFreeFrom used n (i + 1) := by
        simp [firstFreeFrom, hi]
      obtain ⟨ha, hb, hc⟩ := ih (i + 1) j hj (by omega) (by omega)
      rw [hrw]
      refine ⟨ha, by omega, fun k hk1 hk2 => ?_⟩
      by_cases hk : k = i
      · exact hk ▸ hi
      · exact hc k (by omega) hk2
    · have hrw : firstFreeFrom used (n + 1) i = i := by
        simp [firstFreeFrom, hi]
      rw [hrw]
      exact ⟨hi, Nat.le_refl i, fun k hk1 hk2 => by omega⟩

theorem exists_free_le_length (used : List Nat) :
    ∃ j, j ≤ used.length ∧ j ∉ used := by
  by_contra h
  push_neg at h
  have hsub : List.range (used.length + 1) ⊆ used := by
    intro x hx
    exact h x (by simpa [Nat.lt_succ_iff] using List.mem_range.mp hx)
  have hnd : (List.range (used.length + 1)).Nodup := List.nodup_range _
  have hlen := (List.subperm_of_subset hnd hsub).length_le
  simp [List.length_range] at hlen

theorem firstFree_spec (used : List Nat) :
    firstFree used ∉ used ∧ (∀ j < firstFree used, j ∈ used) ∧
    firstFree used ≤ used.length := by
  obtain ⟨j, hle, hnot⟩ := exists_free_le_length used
  obtain ⟨h1, h2, h3⟩ :=
    firstFreeFrom_spec used (used.length + 1) 0 j hnot (Nat.zero_le j) (by omega)
  rw [show firstFree used = firstFreeFrom used (used.length + 1) 0 from rfl]
  refine ⟨h1, fun k hk => h3 k (Nat.zero_le k) hk, ?_⟩
  by_contra hgt
  push_neg at hgt
  exact hnot (h3 j (Nat.zero_le j) (by omega))

/-- Claim C4: for a task with no allocation, `allocate` hands out the triple
`(APP_BASE+i, DB_BASE+i, REDIS_BASE+i)` where `i` is the lowest
non-negative integer not among the allocated indices (the additions are the
`u16` additions of the source; below 59156 live allocations they coincide
with plain addition); for a task that already has an allocation, `allocate`
returns it and leaves the registry unchanged; and in the concrete scenario
that allocates indices 0..=4 and releases index 2, the next allocation gets
index 2 (ports 3003/5435/6382). -/
theorem allocate_gap_filling :
    (∀ (r : PortRegistry) (name : Name), alistLookup r name = none →
      ∃ i, i ∉ usedIndices r ∧ (∀ j < i, j ∈ usedIndices r) ∧
        (allocateReg r name).1 = ⟨add16 APP_BASE i, add16 DB_BASE i, add16 REDIS_BASE i⟩ ∧
        (r.length ≤ 59155 →
          (allocateReg r name).1 = ⟨APP_BASE + i, DB_BASE + i, REDIS_BASE + i⟩))
    ∧ (∀ (r : PortRegistry) (name : Name) (p : AllocatedPorts),
        alistLookup r name = some p → allocateReg r name = (p, r))
    ∧ (allocateReg (releaseReg gapRegistry5 nameC) nameF).1 = ⟨3003, 5435, 6382⟩ := by
  refine ⟨?_, ?_, by decide⟩
  · intro r name h
    obtain ⟨h1, h2, h3⟩ := firstFree_spec (usedIndices r)
    refine ⟨firstFree (usedIndices r), h1, h2, ?_, ?_⟩
    · simp [allocateReg, h]
    · intro hlen
      have hi : firstFree (usedIndices r) ≤ 59155 := by
        have : (usedIndices r).length = r.length := List.length_map _ _
        omega
      simp only [allocateReg, h]
      refine AllocatedPorts.mk.injEq _ _ _ _ _ _ ▸ ?_
      simp only [APP_BASE, DB_BASE, REDIS_BASE, add16]
      refine ⟨?_, ?_, ?_⟩ <;> exact Nat.mod_eq_of_lt (by omega)
  · intro r name p h
    simp [allocateReg, h]

theorem allocate_gap_filling_witness :
    ∃ i, i ∉ usedIndices [] ∧ (∀ j < i, j ∈ usedIndices []) ∧
      (allocateReg [] nameA).1 = ⟨add16 APP_BASE i, add16 DB_BASE i, add16 REDIS_BASE i⟩ ∧
      (([] : PortRegistry).length ≤ 59155 →
        (allocateReg [] nameA).1 = ⟨APP_BASE + i, DB_BASE + i, REDIS_BASE + i⟩) :=
  allocate_gap_filling.1 [] nameA (by decide)

theorem sub16_add16 (b i : Nat) (hb : b ≤ 65535) :
    sub16 (add16 b i) b = i % 65536 := by
  simp only [add16, sub16]
  omega

/-- Claim C5: every triple stored by `allocate` satisfies the same-index
invariant `app - APP_BASE == db - DB_BASE == redis - REDIS_BASE` (in the
`u16` arithmetic of the source), and both `allocate` and `release` preserve
the invariant for every entry of the registry. -/
theorem ports_same_index_invariant :
    ∀ (r : PortRegistry) (name : Name),
      (∀ e ∈ r, sameIndex e.2) →
      (∀ e ∈ (allocateReg r name).2, sameIndex e.2) ∧
      (∀ e ∈ releaseReg r name, sameIndex e.2) := by
  intro r name hr
  constructor
  · intro e he
    match hl : alistLookup r name with
    | some p =>
      rw [allocateReg, hl] at he
      exact hr e he
    | none =>
      rw [allocateReg, hl] at he
      simp only [List.mem_append, List.mem_singleton] at he
      rcases he with he | he
      · exact hr e he
      · subst he
        refine ⟨?_, ?_⟩ <;>
          simp [sameIndex, sub16_add16, APP_BASE, DB_BASE, REDIS_BASE]
  · intro e he
    have : ∀ (l : PortRegistry) (q : Name), e ∈ alistRemove l q → e ∈ l := by
      intro l q
      induction l with
      | nil => simp [alistRemove]
      | cons hd tl ih =>
        simp only [alistRemove]
        split
        · intro h; exact List.mem_cons_of_mem _ (ih h)
        · intro h
          rcases List.mem_cons.mp h with h | h
          · exact h ▸ List.mem_cons_self _ _
          · exact List.mem_cons_of_mem _ (ih h)
    exact hr e (this r name he)

theorem ports_same_index_invariant_witness :
    (∀ e ∈ (allocateReg [] nameA).2, sameIndex e.2) ∧
    (∀ e ∈ releaseReg [] nameA, sameIndex e.2) :=
  ports_same_index_invariant [] nameA (by intro e he; cases he)

/-- Claim C10: when the registry file is absent or unparseable, `allocate`
and `release` proceed as if the registry were empty: loading yields the
default empty registry, the first requester receives index 0
(ports 3001/5433/6380), the saved file holds only the new allocation
(whatever the unreadable file held is discarded), and `release` saves an
empty registry; no error is raised (in the source the only fallible steps
around this logic are the lock acquisition and the final write). -/
theorem registry_unreadable_fallback :
    ∀ (f : RegistryFile) (name : Name), f = none ∨ f = some none →
      loadRegistry f = [] ∧
      (allocateFile f name).1 = ⟨APP_BASE, DB_BASE, REDIS_BASE⟩ ∧
      (allocateFile f name).2 = some (some [(name, ⟨APP_BASE, DB_BASE, REDIS_BASE⟩)]) ∧
      releaseFile f name = some (some []) := by
  intro f name hf
  have hload : loadRegistry f = [] := by
    rcases hf with rfl | rfl <;> rfl
  refine ⟨hload, ?_, ?_, ?_⟩ <;>
    simp [allocateFile, releaseFile, hload, allocateReg, alistLookup, releaseReg,
      alistRemove, usedIndices, firstFree, firstFreeFrom, add16, APP_BASE, DB_BASE,
      REDIS_BASE]

theorem registry_unreadable_fallback_witness :
    loadRegistry none = [] ∧
    (allocateFile none nameA).1 = ⟨APP_BASE, DB_BASE, REDIS_BASE⟩ ∧
    (allocateFile none nameA).2 = some (some [(nameA, ⟨APP_BASE, DB_BASE, REDIS_BASE⟩)]) ∧
    releaseFile none nameA = some (some []) :=
  registry_unreadable_fallback none nameA (Or.inl rfl)

/-! ## Theorems: branch name formatting -/

theorem slug_keep_agree_ascii :
    ∀ c < 128,
      (rustIsAlphanumeric (spaceToHyphen (rustLowerChar c)) ||
        (spaceToHyphen (rustLowerChar c) == 45)) =
      specSlugKeep (spaceToHyphen (rustLowerChar c)) := by
  decide

/-- Claim C9 fails on the code: for the name consisting of the single
character é (U+00E9), the formatter keeps é (Rust `char::is_alphanumeric`
is Unicode-wide), while the claimed characterization removes every
character outside [a-z0-9-]. -/
theorem format_branch_name_spec_counterexample :
    formatBranchName [112] [116] [233] ≠ specFormatBranchName [112] [116] [233] := by
  decide

/-- Claim C9 (amended): restricted to names made of ASCII characters,
`format_branch_name(project, type, name)` is exactly
`project/type/slug` with the slug as the specification words it: name
lowercased, spaces replaced by hyphens, every character outside [a-z0-9-]
removed.  (Outside ASCII the code keeps all Unicode alphanumerics.) -/
theorem format_branch_name_ascii (project taskType name : Name)
    (h : ∀ c ∈ name, c < 128) :
    formatBranchName project taskType name =
    specFormatBranchName project taskType name := by
  unfold formatBranchName specFormatBranchName
  have hfilter :
      ((name.map rustLowerChar).map spaceToHyphen).filter
        (fun c => rustIsAlphanumeric c || c == 45) =
      ((name.map rustLowerChar).map spaceToHyphen).filter specSlugKeep := by
    apply List.filter_congr
    intro x hx
    rw [List.map_map] at hx
    obtain ⟨c, hc, rfl⟩ := List.mem_map.mp hx
    exact slug_keep_agree_ascii c (h c hc)
  rw [hfilter]

theorem format_branch_name_ascii_witness :
    formatBranchName [112] [102] [70, 105, 120, 32, 66, 117, 103, 33] =
    specFormatBranchName [112] [102] [70, 105, 120, 32, 66, 117, 103, 33] :=
  format_branch_name_ascii [112] [102] [70, 105, 120, 32, 66, 117, 103, 33]
    (by decide)

/-! ## Theorems: state store -/

/-- Claim C1 fails on the code: at a concrete record path and serialized
contents, the trace of `GroveState::save` does not match the
write-temp-then-rename pattern — it writes the final path directly and
issues no rename at all. -/
theorem grove_save_not_atomic_counterexample :
    ¬ atomicSavePattern (groveSaveOps [123, 125] cPathGroves) cPathGroves := by
  intro h
  exact h.2 [123, 125] (by simp [groveSaveOps])

/-- Claim C1 (amended): for every record and path, saving creates the
parent directory and writes the serialized contents directly to the final
path: the direct write is in the trace, no rename is ever issued, and the
only write in the trace is that direct write (in particular no temporary
sibling file is written). -/
theorem grove_save_writes_directly (serialized : List Nat) (path : FsPath) :
    FsOp.writeFile path serialized ∈ groveSaveOps serialized path ∧
    (∀ src dst, FsOp.rename src dst ∉ groveSaveOps serialized path) ∧
    (∀ p c, FsOp.writeFile p c ∈ groveSaveOps serialized path →
      p = path ∧ c = serialized) := by
  refine ⟨by simp [groveSaveOps], ?_, ?_⟩
  · intro src dst h
    simp [groveSaveOps] at h
  · intro p c h
    simpa [groveSaveOps] using h

theorem grove_save_writes_directly_witness :
    FsOp.writeFile cPathGroves [123, 125] ∈ groveSaveOps [123, 125] cPathGroves ∧
    (cPathGroves = cPathGroves ∧ [123, 125] = ([123, 125] : List Nat)) :=
  ⟨(grove_save_writes_directly [123, 125] cPathGroves).1,
    (grove_save_writes_directly [123, 125] cPathGroves).2.2 cPathGroves [123, 125]
      (grove_save_writes_directly [123, 125] cPathGroves).1⟩

/-! ## Theorems: .env normalizer -/

theorem splitNl_ne_nil : ∀ s : List Nat, splitNl s ≠ [] := by
  intro s
  induction s with
  | nil => simp [splitNl]
  | cons c rest ih =>
    cases hr : splitNl rest with
    | nil => exact absurd hr ih
    | cons a t =>
      simp only [splitNl, hr]
      split <;> simp

theorem splitNl_append_nl (l t : List Nat) (hl : 10 ∉ l) :
    splitNl (l ++ 10 :: t) = l :: splitNl t := by
  induction l with
  | nil => simp [splitNl]
  | cons c l' ih =>
    have hc : c ≠ 10 := fun h => hl (h ▸ List.mem_cons_self _ _)
    have hl' : 10 ∉ l' := fun h => hl (List.mem_cons_of_mem _ h)
    show splitNl (c :: (l' ++ 10 :: t)) = (c :: l') :: splitNl t
    rw [show splitNl (c :: (l' ++ 10 :: t)) =
        (if c = 10 then [] :: splitNl (l' ++ 10 :: t)
         else match splitNl (l' ++ 10 :: t) with
           | s :: ss => (c :: s) :: ss
           | [] => [[c]]) from rfl]
    rw [if_neg hc, ih hl']

theorem splitNl_join (ls : List (List Nat)) (h : ∀ l ∈ ls, 10 ∉ l) :
    splitNl ((ls.map (fun l => l ++ [10])).flatten) = ls ++ [[]] := by
  induction ls with
  | nil => simp [splitNl]
  | cons l rest ih =>
    have hjoin : ((l :: rest).map (fun l => l ++ [10])).flatten =
        l ++ 10 :: ((rest.map (fun l => l ++ [10])).flatten) := by
      simp
    rw [hjoin, splitNl_append_nl l _ (h l (List.mem_cons_self _ _)),
      ih (fun x hx => h x (List.mem_cons_of_mem _ hx))]
    rfl

theorem list_map_fix {α : Type} (f : α → α) :
    ∀ (ls : List α), (∀ l ∈ ls, f l = l) → ls.map f = ls := by
  intro ls h
  induction ls with
  | nil => rfl
  | cons a tl ih =>
    simp only [List.map_cons]
    rw [h a (List.mem_cons_self _ _), ih (fun x hx => h x (List.mem_cons_of_mem _ hx))]

theorem list_map_congr {α β : Type} (f g : α → β) :
    ∀ (ls : List α), (∀ l ∈ ls, f l = g l) → ls.map f = ls.map g := by
  intro ls h
  induction ls with
  | nil => rfl
  | cons a tl ih =>
    simp only [List.map_cons]
    rw [h a (List.mem_cons_self _ _), ih (fun x hx => h x (List.mem_cons_of_mem _ hx))]

theorem rustLines_normalized (ls : List (List Nat))
    (h10 : ∀ l ∈ ls, 10 ∉ l) (h13 : ∀ l ∈ ls, l.getLast? ≠ some 13) :
    rustLines ((ls.map (fun l => l ++ [10])).flatten) = ls := by
  have hs := splitNl_join ls h10
  simp only [rustLines, hs, List.getLast?_concat, List.dropLast_concat]
  exact list_map_fix stripTrailingCR ls
    (fun l hl => by simp [stripTrailingCR, h13 l hl])

/-- Claim C6 fails on the code: for the input consisting of the single line
A="'1'", normalization once yields the line A='1' and normalizing that
output yields A=1 — the normalizer strips one layer of surrounding quotes
per pass, so its output is not a fixed point. -/
theorem normalize_env_not_fixed_point_counterexample :
    normalizeEnv (normalizeEnv envCounterexample) ≠ normalizeEnv envCounterexample := by
  decide

/-- Claim C6 (amended): normalization is idempotent on every input whose
processed lines are all stable — free of interior line feeds, not ending
in a carriage return, and fixed by per-line normalization.  Inputs whose
values carry nested quote layers (and only such irregular lines) escape
this: each pass strips one matching layer, so a second pass can differ. -/
theorem normalize_env_idempotent_on_stable (s : List Nat)
    (h : ∀ l ∈ (rustLines s).map procLine, lineStable l) :
    normalizeEnv (normalizeEnv s) = normalizeEnv s := by
  have h10 : ∀ l ∈ (rustLines s).map procLine, 10 ∉ l := fun l hl => (h l hl).1
  have h13 : ∀ l ∈ (rustLines s).map procLine, l.getLast? ≠ some 13 :=
    fun l hl => (h l hl).2.1
  have hfix : ∀ l ∈ (rustLines s).map procLine, procLine l = l :=
    fun l hl => (h l hl).2.2
  have hrw : (((rustLines s).map procLine).map (fun l => l ++ [10])).flatten =
      normalizeEnv s := by
    rw [List.map_map]
    rfl
  have key : rustLines (normalizeEnv s) = (rustLines s).map procLine := by
    rw [← hrw]
    exact rustLines_normalized _ h10 h13
  show ((rustLines (normalizeEnv s)).map (fun l => procLine l ++ [10])).flatten =
    normalizeEnv s
  rw [key,
    list_map_congr (fun l => procLine l ++ [10]) (fun l => l ++ [10]) _
      (fun l hl => by
        show procLine l ++ [10] = l ++ [10]
        rw [hfix l hl]),
    hrw]

theorem normalize_env_idempotent_witness :
    normalizeEnv (normalizeEnv envWitnessInput) = normalizeEnv envWitnessInput :=
  normalize_env_idempotent_on_stable envWitnessInput (by decide)

/-! ## Theorems: pane targeting -/

theorem windowPaneTargets_all_byIndex (sess : Name) (b i : Nat) (he : Bool)
    (w : WindowTemplate) :
    (windowPaneTargets sess b i he w).all targetByIndex = true := by
  rw [List.all_eq_true]
  intro t ht
  unfold windowPaneTargets at ht
  simp only [List.mem_append] at ht
  rcases ht with (ht | ht) | ht
  · rcases hh : w.panes.head? with _ | p
    · rw [hh] at ht
      cases ht
    · rw [hh] at ht
      by_cases hd : p.directory.isSome
      · simp only [if_pos hd, List.mem_singleton] at ht
        subst ht
        rfl
      · simp only [if_neg hd] at ht
        cases ht
  · obtain ⟨e, _, rfl⟩ := List.mem_map.mp ht
    rfl
  · rcases hf : lastFocusIdx w.panes with _ | j
    · rw [hf] at ht
      cases ht
    · rw [hf] at ht
      simp only [List.mem_singleton] at ht
      subst ht
      rfl

/-- Claim C7 is right about the workspace builder but refuted by the
orchestrator: every pane-addressed command create_worker_session emits
targets the pane as session:window-index.pane-index, yet the send of the
optional initial command during plant targets the first pane through the
first window's NAME — with the built-in default template it goes to
ws_name:server.0 rather than ws_name:0.0. -/
theorem pane_targets_by_index_except_initial_send :
    (∀ (sess : Name) (tpl : WorkspaceTemplate) (base : Nat) (hasExec : Bool),
      (sessionPaneTargets sess tpl base hasExec).all targetByIndex = true)
    ∧ plantInitialSendTarget (workerSessionName hubName taskFeat) defaultTemplate =
        some ⟨workerSessionName hubName taskFeat, WinSel.byName serverStr, 0⟩
    ∧ (plantInitialSendTarget (workerSessionName hubName taskFeat)
        defaultTemplate).map targetByIndex = some false := by
  refine ⟨?_, by decide, by decide⟩
  intro sess tpl base hasExec
  rw [List.all_eq_true]
  intro t ht
  simp only [sessionPaneTargets, List.mem_flatten, List.mem_map] at ht
  obtain ⟨l, ⟨e, _, rfl⟩, htl⟩ := ht
  exact List.all_eq_true.mp (windowPaneTargets_all_byIndex sess base e.1 hasExec e.2) t htl

/-! ## Theorems: orchestrator stop and plant -/

theorem not_mem_listRemove (l : List Name) (x : Name) : x ∉ listRemove l x := by
  induction l with
  | nil => simp [listRemove]
  | cons y t ih =>
    by_cases h : y = x
    · simpa [listRemove, h] using ih
    · simp only [listRemove, if_neg h, List.mem_cons]
      exact fun hc => hc.elim (fun he => h he.symm) ih

theorem alistLookup_alistRemove_self {α : Type} (l : List (Name × α)) (q : Name) :
    alistLookup (alistRemove l q) q = none := by
  induction l with
  | nil => rfl
  | cons e t ih =>
    obtain ⟨k, v⟩ := e
    by_cases h : k = q
    · simpa [alistRemove, h] using ih
    · simp [alistRemove, alistLookup, h, ih]

theorem teardown_fields (w : World) (t : Name) (st : GroveRec) :
    (teardown w t st).records = alistRemove w.records t ∧
    (teardown w t st).worktrees = w.worktrees ∧
    (teardown w t st).branches = w.branches := by
  unfold teardown
  cases st.composeFile <;> cases st.tmuxSession <;> exact ⟨rfl, rfl, rfl⟩

theorem teardown_post (w : World) (t : Name) (st : GroveRec)
    (hinv : st.composeFile = none →
      alistLookup w.registry t = none ∧ t ∉ w.composeDirs) :
    alistLookup (teardown w t st).records t = none ∧
    t ∉ (teardown w t st).composeDirs ∧
    alistLookup (teardown w t st).registry t = none ∧
    (∀ ws, st.tmuxSession = some ws → ws ∉ (teardown w t st).sessions) ∧
    (teardown w t st).worktrees = w.worktrees ∧
    (teardown w t st).branches = w.branches := by
  cases hc : st.composeFile with
  | none =>
    cases hs : st.tmuxSession with
    | none =>
      unfold teardown
      rw [hc, hs]
      dsimp only
      refine ⟨alistLookup_alistRemove_self _ _, (hinv hc).2, (hinv hc).1,
        ?_, rfl, rfl⟩
      intro ws hws
      cases hws
    | some ws0 =>
      unfold teardown
      rw [hc, hs]
      dsimp only
      refine ⟨alistLookup_alistRemove_self _ _, (hinv hc).2, (hinv hc).1,
        ?_, rfl, rfl⟩
      intro ws hws
      injection hws with hws
      subst hws
      exact not_mem_listRemove _ _
  | some cf =>
    cases hs : st.tmuxSession with
    | none =>
      unfold teardown
      rw [hc, hs]
      dsimp only
      refine ⟨alistLookup_alistRemove_self _ _, not_mem_listRemove _ _,
        alistLookup_alistRemove_self _ _, ?_, rfl, rfl⟩
      intro ws hws
      cases hws
    | some ws0 =>
      unfold teardown
      rw [hc, hs]
      dsimp only
      refine ⟨alistLookup_alistRemove_self _ _, not_mem_listRemove _ _,
        alistLookup_alistRemove_self _ _, ?_, rfl, rfl⟩
      intro ws hws
      injection hws with hws
      subst hws
      exact not_mem_listRemove _ _

theorem stopNoForce_ok_frame (w : World) (t : Name) (w2 : World)
    (h : stopNoForce w t = Except.ok w2) :
    w2.worktrees = w.worktrees ∧ w2.branches = w.branches := by
  unfold stopNoForce at h
  cases hlk : alistLookup w.records t with
  | none => rw [hlk] at h; cases h
  | some st =>
    rw [hlk] at h
    dsimp only at h
    split at h
    · cases h
    · injection h with h
      subst h
      obtain ⟨-, h2, h3⟩ := teardown_fields w t st
      exact ⟨h2, h3⟩

theorem stopChild_frame (w : World) (t : Name) :
    (stopChildIgnoringErr w t).worktrees = w.worktrees ∧
    (stopChildIgnoringErr w t).branches = w.branches := by
  unfold stopChildIgnoringErr
  cases hnf : stopNoForce w t with
  | error e => exact ⟨rfl, rfl⟩
  | ok w2 => exact stopNoForce_ok_frame w t w2 hnf

theorem foldl_stopChild_frame (ts : List Name) :
    ∀ w : World, (ts.foldl stopChildIgnoringErr w).worktrees = w.worktrees ∧
      (ts.foldl stopChildIgnoringErr w).branches = w.branches := by
  induction ts with
  | nil => exact fun w => ⟨rfl, rfl⟩
  | cons t ts ih =>
    intro w
    simp only [List.foldl_cons]
    obtain ⟨h1, h2⟩ := ih (stopChildIgnoringErr w t)
    obtain ⟨g1, g2⟩ := stopChild_frame w t
    exact ⟨h1.trans g1, h2.trans g2⟩

/-- Claim C2: for every task with a record on disk (under the record
invariant that a record without a compose-file field has no port entry and
no compose directory), when stop returns Ok the record file, the compose
directory, the port-registry entry and the record's multiplexer session
are all gone, while the worktree directories and the git branches —
including the one named in the record — are exactly as before. -/
theorem stop_removes_ephemeral_keeps_worktree_branch :
    ∀ (w : World) (t : Name) (force : Bool) (st : GroveRec) (w' : World),
      alistLookup w.records t = some st →
      (st.composeFile = none →
        alistLookup w.registry t = none ∧ t ∉ w.composeDirs) →
      stop w t force = Except.ok w' →
      alistLookup w'.records t = none ∧
      t ∉ w'.composeDirs ∧
      alistLookup w'.registry t = none ∧
      (∀ ws, st.tmuxSession = some ws → ws ∉ w'.sessions) ∧
      w'.worktrees = w.worktrees ∧
      w'.branches = w.branches := by
  intro w t force st w' hlk hinv hok
  unfold stop at hok
  rw [hlk] at hok
  dsimp only at hok
  split at hok
  · rename_i hcond
    split at hok
    · injection hok with hw'
      subst hw'
      have hc : st.composeFile.isSome := hcond.1
      obtain ⟨p1, p2, p3, p4, p5, p6⟩ :=
        teardown_post ((sharingTrees w.records t).foldl stopChildIgnoringErr w) t st
          (fun hnone => by rw [hnone] at hc; cases hc)
      obtain ⟨f1, f2⟩ := foldl_stopChild_frame (sharingTrees w.records t) w
      exact ⟨p1, p2, p3, p4, p5.trans f1, p6.trans f2⟩
    · cases hok
  · injection hok with hw'
    subst hw'
    exact teardown_post w t st hinv

theorem stop_removes_ephemeral_witness :
    alistLookup worldWAfter.records taskFeat = none ∧
    taskFeat ∉ worldWAfter.composeDirs ∧
    alistLookup worldWAfter.registry taskFeat = none ∧
    (∀ ws, recW.tmuxSession = some ws → ws ∉ worldWAfter.sessions) ∧
    worldWAfter.worktrees = worldW.worktrees ∧
    worldWAfter.branches = worldW.branches :=
  stop_removes_ephemeral_keeps_worktree_branch worldW taskFeat false recW worldWAfter
    (by decide) (by decide) (by rfl)

theorem mem_listInsert_of_mem (l : List Name) (x y : Name) (h : x ∈ l) :
    x ∈ listInsert l y := by
  unfold listInsert
  split
  · exact h
  · exact List.mem_cons_of_mem _ h

theorem branches_rollbackWtBranch_not_created (w : World) (t b : Name) (r : Bool) :
    (rollbackWtBranch w t b r false).branches = w.branches := by
  unfold rollbackWtBranch
  split <;> rfl

theorem branches_composeRollbackIf (b : Bool) (w : World) (t : Name) :
    (composeRollbackIf b w t).branches = w.branches := by
  unfold composeRollbackIf removeComposeDir releasePortsOnly
  split <;> rfl

theorem branches_plantFinish_not_created (w : World) (o : PlantOracle) (a : PlantArgs)
    (r cm : Bool) (ports : Option AllocatedPorts) :
    (plantFinish w o a r false cm ports).1.branches = w.branches := by
  unfold plantFinish
  dsimp only
  split
  · dsimp only
    rw [branches_rollbackWtBranch_not_created, branches_composeRollbackIf]
  · split
    · dsimp only
      rw [branches_rollbackWtBranch_not_created, branches_composeRollbackIf]
    · rfl

theorem branches_plantCompose_not_created (w : World) (o : PlantOracle) (a : PlantArgs)
    (r : Bool) :
    (plantCompose w o a r false).1.branches = w.branches := by
  unfold plantCompose
  dsimp only
  split
  · dsimp only
    rw [branches_rollbackWtBranch_not_created]
  · split
    · dsimp only
      rw [branches_rollbackWtBranch_not_created]
      rfl
    · split
      · dsimp only
        rw [branches_rollbackWtBranch_not_created]
        rfl
      · rw [branches_plantFinish_not_created]

/-- Claim C3: whenever the branch named in a plant call already exists
before the call, every path of plant — success or any rollback path, as
driven by an arbitrary oracle of stage outcomes — leaves that branch in
the branch set (rollback deletes the branch only when plant created it). -/
theorem plant_preserves_existing_branch :
    ∀ (w : World) (o : PlantOracle) (a : PlantArgs),
      a.branchName ∈ w.branches →
      a.branchName ∈ (plant w o a).1.branches := by
  intro w o a hb
  have hbc : decide (a.branchName ∉ w.branches) = false := by
    rw [decide_eq_false_iff_not]
    exact fun hn => hn hb
  unfold plant
  dsimp only
  rw [hbc, if_neg (by simp : ¬ ((false : Bool) = true))]
  split
  · exact hb
  · split
    · exact hb
    · split
      · exact hb
      · split
        · dsimp only
          rw [branches_rollbackWtBranch_not_created]
          exact hb
        · split
          · rw [branches_plantCompose_not_created, apply_ite World.branches]
            dsimp only
            rw [ite_self]
            exact hb
          · rw [branches_plantFinish_not_created, apply_ite World.branches]
            dsimp only
            rw [ite_self]
            exact hb

theorem plant_preserves_existing_branch_witness :
    plantArgsW.branchName ∈ (plant worldP plantOracleUpFail plantArgsW).1.branches :=
  plant_preserves_existing_branch worldP plantOracleUpFail plantArgsW (by decide)

/-! ## Theorems: postgres URL parsing -/

theorem takeWhile_append_of_all (p : Nat → Bool) (l1 l2 : List Nat)
    (h : ∀ c ∈ l1, p c = true) :
    (l1 ++ l2).takeWhile p = l1 ++ l2.takeWhile p := by
  induction l1 with
  | nil => simp
  | cons a t ih =>
    have ha := h a (List.mem_cons_self _ _)
    simp [List.takeWhile_cons, ha,
      ih (fun c hc => h c (List.mem_cons_of_mem _ hc))]

theorem dropWhile_append_of_all (p : Nat → Bool) (l1 l2 : List Nat)
    (h : ∀ c ∈ l1, p c = true) :
    (l1 ++ l2).dropWhile p = l2.dropWhile p := by
  induction l1 with
  | nil => simp
  | cons a t ih =>
    have ha := h a (List.mem_cons_self _ _)
    simp [List.dropWhile_cons, ha,
      ih (fun c hc => h c (List.mem_cons_of_mem _ hc))]

theorem takeWhile_eq_self_of_all (p : Nat → Bool) (l : List Nat)
    (h : ∀ c ∈ l, p c = true) : l.takeWhile p = l := by
  simpa using takeWhile_append_of_all p l [] h

theorem splitOnce_eq_none (ch : Nat) (l : List Nat) (h : ∀ c ∈ l, c ≠ ch) :
    splitOnce ch l = none := by
  induction l with
  | nil => rfl
  | cons a t ih =>
    have ha := h a (List.mem_cons_self _ _)
    simp [splitOnce, ha, ih (fun c hc => h c (List.mem_cons_of_mem _ hc))]

theorem splitOnce_append_sep (ch : Nat) (l1 l2 : List Nat)
    (h : ∀ c ∈ l1, c ≠ ch) :
    splitOnce ch (l1 ++ ch :: l2) = some (l1, l2) := by
  induction l1 with
  | nil => simp [splitOnce]
  | cons a t ih =>
    have ha := h a (List.mem_cons_self _ _)
    simp [splitOnce, ha, ih (fun c hc => h c (List.mem_cons_of_mem _ hc))]

theorem splitLast_append_sep (ch : Nat) (l1 l2 : List Nat)
    (h : ∀ c ∈ l2, c ≠ ch) :
    splitLast ch (l1 ++ ch :: l2) = some (l1, l2) := by
  unfold splitLast
  rw [show (l1 ++ ch :: l2).reverse = l2.reverse ++ ch :: l1.reverse by simp,
    splitOnce_append_sep ch _ _ (fun c hc => h c (List.mem_reverse.mp hc))]
  simp

theorem splitLast_eq_none (ch : Nat) (l : List Nat) (h : ∀ c ∈ l, c ≠ ch) :
    splitLast ch l = none := by
  unfold splitLast
  rw [splitOnce_eq_none ch _ (fun c hc => h c (List.mem_reverse.mp hc))]

theorem hostChar_props (c : Nat) (h : isHostChar c = true) :
    (decide (c ≠ 47 ∧ c ≠ 63 ∧ c ≠ 35) = true) ∧ c ≠ 58 ∧ c ≠ 64 ∧
    isForbiddenHostChar c = false := by
  simp only [isHostChar, isAsciiAlpha, isAsciiDigit, Bool.or_eq_true,
    decide_eq_true_eq] at h
  simp only [isForbiddenHostChar, decide_eq_true_eq, decide_eq_false_iff_not]
  omega

theorem digitChar_props (c : Nat) (h : isAsciiDigit c = true) :
    (decide (c ≠ 47 ∧ c ≠ 63 ∧ c ≠ 35) = true) ∧ c ≠ 58 ∧ c ≠ 64 := by
  simp only [isAsciiDigit, decide_eq_true_eq] at h
  simp only [decide_eq_true_eq]
  omega

theorem dbChar_props (c : Nat) (h : isDbChar c = true) :
    (decide (c ≠ 47 ∧ c ≠ 63 ∧ c ≠ 35) = true) ∧
    (decide (c ≠ 63 ∧ c ≠ 35) = true) ∧ c ≠ 47 := by
  simp only [isDbChar, isAsciiAlpha, isAsciiDigit, Bool.or_eq_true,
    decide_eq_true_eq] at h
  simp only [decide_eq_true_eq]
  omega

theorem natDecimalAux_eq (n : Nat) (acc : List Nat) :
    natDecimalAux n acc = if n < 10 then (48 + n) :: acc
      else natDecimalAux (n / 10) ((48 + n % 10) :: acc) := by
  rw [natDecimalAux]
  rfl

theorem natDecimalAux_append (n : Nat) :
    ∀ acc, natDecimalAux n acc = natDecimal n ++ acc := by
  induction n using Nat.strong_induction_on with
  | _ n ih =>
    intro acc
    by_cases h : n < 10
    · rw [natDecimal, natDecimalAux_eq n acc, natDecimalAux_eq n [],
        if_pos h, if_pos h]
      rfl
    · rw [natDecimal, natDecimalAux_eq n acc, natDecimalAux_eq n [],
        if_neg h, if_neg h,
        ih (n / 10) (Nat.div_lt_self (by omega) (by omega)) ((48 + n % 10) :: acc),
        ih (n / 10) (Nat.div_lt_self (by omega) (by omega)) [48 + n % 10]]
      simp

theorem natDecimal_of_lt (n : Nat) (h : n < 10) : natDecimal n = [48 + n] := by
  rw [natDecimal, natDecimalAux_eq, if_pos h]

theorem natDecimal_of_ge (n : Nat) (h : ¬ n < 10) :
    natDecimal n = natDecimal (n / 10) ++ [48 + n % 10] := by
  rw [natDecimal, natDecimalAux_eq, if_neg h, natDecimalAux_append]

theorem natDecimal_ne_nil (n : Nat) : natDecimal n ≠ [] := by
  by_cases h : n < 10
  · rw [natDecimal_of_lt n h]
    simp
  · rw [natDecimal_of_ge n h]
    simp

theorem allDigits_natDecimal (n : Nat) :
    ∀ c ∈ natDecimal n, isAsciiDigit c = true := by
  induction n using Nat.strong_induction_on with
  | _ n ih =>
    intro c hc
    by_cases h : n < 10
    · rw [natDecimal_of_lt n h] at hc
      simp only [List.mem_singleton] at hc
      subst hc
      simp only [isAsciiDigit, decide_eq_true_eq]
      omega
    · rw [natDecimal_of_ge n h] at hc
      rcases List.mem_append.mp hc with hc | hc
      · exact ih (n / 10) (Nat.div_lt_self (by omega) (by omega)) c hc
      · simp only [List.mem_singleton] at hc
        subst hc
        have := Nat.mod_lt n (show 0 < 10 by omega)
        simp only [isAsciiDigit, decide_eq_true_eq]
        omega

theorem digitsVal_foldl (n : Nat) :
    ∀ a, List.foldl (fun a c => a * 10 + (c - 48)) a (natDecimal n) =
      a * 10 ^ (natDecimal n).length + n := by
  induction n using Nat.strong_induction_on with
  | _ n ih =>
    intro a
    by_cases h : n < 10
    · rw [natDecimal_of_lt n h]
      simp only [List.foldl_cons, List.foldl_nil, List.length_cons,
        List.length_nil, pow_one, zero_add]
      omega
    · rw [natDecimal_of_ge n h]
      rw [List.foldl_append,
        ih (n / 10) (Nat.div_lt_self (by omega) (by omega)) a]
      simp only [List.foldl_cons, List.foldl_nil, List.length_append,
        List.length_cons, List.length_nil]
      have hmod : 48 + n % 10 - 48 = n % 10 := by omega
      rw [hmod, pow_succ]
      have hdm := Nat.div_add_mod n 10
      ring_nf
      omega

theorem digitsVal_natDecimal (n : Nat) : digitsVal (natDecimal n) = n := by
  rw [digitsVal, digitsVal_foldl n 0]
  simp

theorem urlParse_wellformed (c0 : Nat) (sch' host D db : List Nat)
    (h0 : isAsciiAlpha c0 = true)
    (hsch : ∀ c ∈ c0 :: sch', isSchemeChar c = true)
    (hhost : ∀ c ∈ host, isHostChar c = true)
    (hD : ∀ c ∈ D, isAsciiDigit c = true) (hDne : D ≠ [])
    (hDval : digitsVal D ≤ 65535)
    (hdb : ∀ c ∈ db, isDbChar c = true) :
    urlParse ((c0 :: sch') ++ 58 :: 47 :: 47 :: (host ++ 58 :: (D ++ 47 :: db))) =
    some ⟨(c0 :: sch').map asciiLower, some host, some (digitsVal D), 47 :: db⟩ := by
  have hs58 : isSchemeChar 58 = false := by decide
  have htake : ((c0 :: sch') ++ 58 :: 47 :: 47 ::
      (host ++ 58 :: (D ++ 47 :: db))).takeWhile isSchemeChar = c0 :: sch' := by
    rw [takeWhile_append_of_all _ _ _ hsch]
    simp [List.takeWhile_cons, hs58]
  have hdrop : ((c0 :: sch') ++ 58 :: 47 :: 47 ::
      (host ++ 58 :: (D ++ 47 :: db))).dropWhile isSchemeChar =
      58 :: 47 :: 47 :: (host ++ 58 :: (D ++ 47 :: db)) := by
    rw [dropWhile_append_of_all _ _ _ hsch]
    simp [List.dropWhile_cons, hs58]
  have hqhost : ∀ c ∈ host, (fun c => decide (c ≠ 47 ∧ c ≠ 63 ∧ c ≠ 35)) c = true :=
    fun c hc => (hostChar_props c (hhost c hc)).1
  have hqD : ∀ c ∈ D, (fun c => decide (c ≠ 47 ∧ c ≠ 63 ∧ c ≠ 35)) c = true :=
    fun c hc => (digitChar_props c (hD c hc)).1
  have hauth : (host ++ 58 :: (D ++ 47 :: db)).takeWhile
      (fun c => decide (c ≠ 47 ∧ c ≠ 63 ∧ c ≠ 35)) = host ++ 58 :: D := by
    rw [takeWhile_append_of_all _ _ _ hqhost]
    rw [show (58 :: (D ++ 47 :: db)).takeWhile
        (fun c => decide (c ≠ 47 ∧ c ≠ 63 ∧ c ≠ 35)) =
        58 :: (D ++ 47 :: db).takeWhile
          (fun c => decide (c ≠ 47 ∧ c ≠ 63 ∧ c ≠ 35)) by
      simp [List.takeWhile_cons]]
    rw [takeWhile_append_of_all _ _ _ hqD]
    simp [List.takeWhile_cons]
  have hafter : (host ++ 58 :: (D ++ 47 :: db)).dropWhile
      (fun c => decide (c ≠ 47 ∧ c ≠ 63 ∧ c ≠ 35)) = 47 :: db := by
    rw [dropWhile_append_of_all _ _ _ hqhost]
    rw [show (58 :: (D ++ 47 :: db)).dropWhile
        (fun c => decide (c ≠ 47 ∧ c ≠ 63 ∧ c ≠ 35)) =
        (D ++ 47 :: db).dropWhile
          (fun c => decide (c ≠ 47 ∧ c ≠ 63 ∧ c ≠ 35)) by
      simp [List.dropWhile_cons]]
    rw [dropWhile_append_of_all _ _ _ hqD]
    simp [List.dropWhile_cons]
  have hat : splitLast 64 (host ++ 58 :: D) = none := by
    apply splitLast_eq_none
    intro c hc
    rcases List.mem_append.mp hc with hc | hc
    · exact (hostChar_props c (hhost c hc)).2.2.1
    · rcases List.mem_cons.mp hc with hc | hc
      · omega
      · exact (digitChar_props c (hD c hc)).2.2
  have hcolon : splitLast 58 (host ++ 58 :: D) = some (host, D) :=
    splitLast_append_sep 58 host D (fun c hc => (digitChar_props c (hD c hc)).2.1)
  have hforb : host.any isForbiddenHostChar = false := by
    rw [List.any_eq_false]
    intro c hc
    simp [(hostChar_props c (hhost c hc)).2.2.2]
  have hpath : (47 :: db).takeWhile (fun c => decide (c ≠ 63 ∧ c ≠ 35)) =
      47 :: db := by
    rw [show (47 :: db).takeWhile (fun c => decide (c ≠ 63 ∧ c ≠ 35)) =
        47 :: db.takeWhile (fun c => decide (c ≠ 63 ∧ c ≠ 35)) by
      simp [List.takeWhile_cons]]
    rw [takeWhile_eq_self_of_all _ _ (fun c hc => (dbChar_props c (hdb c hc)).2.1)]
  simp only [List.cons_append] at htake hdrop ⊢
  unfold urlParse
  simp only [List.head?_cons]
  try dsimp only
  rw [if_neg (not_not_intro h0), htake, hdrop]
  try dsimp only
  simp only [List.take_succ_cons, List.take_zero, List.drop_succ_cons,
    List.drop_zero]
  simp only [if_true]
  try dsimp only
  rw [hauth, hafter, hat]
  dsimp only
  rw [hcolon]
  dsimp only
  rw [if_neg hDne,
    if_pos (show allDigits D = true from by
      rw [allDigits]
      exact List.all_eq_true.mpr hD),
    if_pos hDval]
  dsimp only
  rw [hforb]
  simp only [Bool.false_eq_true, if_false]
  rw [hpath]

theorem parsePgUrl_serialize (host : List Nat) (port : Nat) (db : List Nat)
    (hh : validHostName host) (hp : port ≤ 65535) (hd : validDbName db) :
    parsePgUrl (serializePgUrl host port db) = Except.ok (host, port, db) := by
  obtain ⟨hne, hchars⟩ := hh
  obtain ⟨dne, dchars⟩ := hd
  have hurl : urlParse (serializePgUrl host port db) =
      some ⟨schemePostgres, some host, some port, 47 :: db⟩ := by
    have := urlParse_wellformed 112 [111, 115, 116, 103, 114, 101, 115]
      host (natDecimal port) db (by decide) (by decide) hchars
      (allDigits_natDecimal port) (natDecimal_ne_nil port)
      (by rw [digitsVal_natDecimal]; exact hp) dchars
    rw [digitsVal_natDecimal] at this
    rw [show serializePgUrl host port db =
      (112 :: [111, 115, 116, 103, 114, 101, 115]) ++ 58 :: 47 :: 47 ::
        (host ++ 58 :: (natDecimal port ++ 47 :: db)) from rfl, this]
    rfl
  unfold parsePgUrl
  rw [hurl]
  dsimp only
  rw [if_pos (Or.inl rfl)]
  have hdbdrop : (47 :: db).dropWhile (fun c => decide (c = 47)) = db := by
    rw [show (47 :: db).dropWhile (fun c => decide (c = 47)) =
        db.dropWhile (fun c => decide (c = 47)) by simp [List.dropWhile_cons]]
    cases db with
    | nil => rfl
    | cons d0 db' =>
      have h0 := (dbChar_props d0 (dchars d0 (List.mem_cons_self _ _))).2.2
      simp [List.dropWhile_cons, h0]
  rw [hdbdrop, if_neg dne]
  rfl

/-- Claim C8: parsing the serialized postgres URL postgres://host:port/db
built from a valid triple returns exactly that triple (valid: nonempty
host of letters, digits, hyphens, dots or underscores; port at most 65535;
nonempty database name of letters, digits, hyphens or underscores), and
for every input that parses as a URL whose scheme is neither postgres nor
postgresql, parse_pg_url returns the invalid-scheme error. -/
theorem parse_pg_url_round_trip :
    (∀ (host : List Nat) (port : Nat) (db : List Nat),
      validHostName host → port ≤ 65535 → validDbName db →
      parsePgUrl (serializePgUrl host port db) = Except.ok (host, port, db))
    ∧ (∀ (s : List Nat) (u : UrlParts), urlParse s = some u →
      u.scheme ≠ schemePostgres → u.scheme ≠ schemePostgresql →
      parsePgUrl s = Except.error PgUrlError.invalidScheme) := by
  constructor
  · exact parsePgUrl_serialize
  · intro s u hu h1 h2
    unfold parsePgUrl
    rw [hu]
    dsimp only
    rw [if_neg (fun hor => hor.elim h1 h2)]

theorem parse_pg_url_round_trip_witness :
    parsePgUrl (serializePgUrl hostLocalhost 5432 dbMydb) =
      Except.ok (hostLocalhost, 5432, dbMydb) ∧
    parsePgUrl mysqlUrl = Except.error PgUrlError.invalidScheme :=
  ⟨parse_pg_url_round_trip.1 hostLocalhost 5432 dbMydb (by decide) (by decide)
      (by decide),
   parse_pg_url_round_trip.2 mysqlUrl mysqlParts (by decide) (by decide)
      (by decide)⟩

end Devflow
